import Mathlib

/-!
Shallow embedding of `src/dingo/gw/SVD.py` (classes `SVDBasis` and `ApplySVD`).

Matrices (numpy 2-D arrays) are lists of rows over `ℂ`; numpy's complex128
arithmetic is idealised to exact complex arithmetic.  The two external SVD
routines (`sklearn.utils.extmath.randomized_svd`, called with the fixed seed
`random_state=0`, and `scipy.linalg.svd` with `full_matrices=False`) are
external collaborators: `generate_basis` is parameterised over them through
an `SVDLib` record, and theorems assume only their documented output-shape
contracts (`RsvdContract`, `ScipyContract`).  Python's mutation of `self` is
embedded as explicit state passing: a method returns the new `SVDBasis`
together with the data it produces; a raised exception is an `Option
SVDError` paired with the (unchanged) prior state.
-/

/-- A numpy 2-D array over complex numbers, as a list of rows. -/
abbrev Mat := List (List ℂ)

/-- Number of columns of a matrix (`shape[1]`); for a non-empty rectangular
matrix this is the length of the first row. -/
def cols (M : Mat) : ℕ := M.headI.length

/-- `M.T.conj()`: the conjugate transpose.  Column `j` of `M` (read with
`getD`, which is only exercised inside the actual shape for rectangular
input) becomes row `j` of the result, entrywise conjugated. -/
def conjT (M : Mat) : Mat :=
  (List.range (cols M)).map (fun j => M.map (fun row => star (row.getD j 0)))

/-- `M` is a rectangular `r × c` matrix. -/
def Rect (r c : ℕ) (M : Mat) : Prop :=
  M.length = r ∧ ∀ row ∈ M, row.length = c

/-- A list of reals is in descending (non-increasing) order. -/
def Descending (l : List ℝ) : Prop := l.Chain' (· ≥ ·)

/-- Dot product of two vectors (`zipWith` mirrors numpy's elementwise product
of equal-length vectors followed by a sum). -/
def dotC (u v : List ℂ) : ℂ := (List.zipWith (· * ·) u v).sum

/-- Column `j` of a matrix. -/
def colOf (M : Mat) (j : ℕ) : List ℂ := M.map (fun row => row.getD j 0)

/-- `h @ M` for a row vector `h` and matrix `M`. -/
def vecMatMul (h : List ℂ) (M : Mat) : List ℂ :=
  (List.range (cols M)).map (fun j => dotC h (colOf M j))

/-- `A @ M` for matrices. -/
def matMul (A M : Mat) : Mat := A.map (fun row => vecMatMul row M)

/-- `np.mean` of a list of reals.  (`noncomputable` only because Mathlib's
real division carries no executable code; the definition is still a plain
arithmetic function the kernel can reduce.) -/
noncomputable def meanR (l : List ℝ) : ℝ := l.sum / l.length

/-- `np.mean` of a list of complex numbers. -/
noncomputable def meanC (l : List ℂ) : ℂ := l.sum / l.length

/-- `np.max` of a list of reals (numpy raises on an empty array; the claims
about it only concern non-empty data, where this clause is never reached). -/
noncomputable def npMax (l : List ℝ) : ℝ :=
  match l with
  | [] => 0
  | x :: xs => xs.foldl max x

/-- The exception raised by `generate_basis` on an unrecognized method
string: `ValueError(f"Unsupported SVD method: {method}.")` — the error the
spec calls `UnsupportedMethodError`. -/
inductive SVDError where
  | unsupportedMethod (method : String)

/-- The state of an `SVDBasis` object.  `__init__` sets every field to
`None`, hence the `Option` types. -/
structure SVDBasis where
  V : Option Mat
  Vh : Option Mat
  s : Option (List ℝ)
  n : Option ℕ

/-- The state produced by `SVDBasis.__init__` (no file, no dictionary):
all four fields are `None`. -/
def initBasis : SVDBasis := ⟨none, none, none, none⟩

/-- The two external SVD routines used by `generate_basis`:
`randomized_svd(A, n, random_state=0)` and
`scipy.linalg.svd(A, full_matrices=False)`, each returning `(U, s, Vh)`. -/
structure SVDLib where
  randomized_svd : Mat → ℕ → Mat × List ℝ × Mat
  scipy_linalg_svd : Mat → Mat × List ℝ × Mat

/-- Documented output contract of `sklearn.utils.extmath.randomized_svd`
with `n_components = k`: `s` has exactly `k` entries in descending order and
`Vh` is a `k × n_features` matrix. -/
def RsvdContract (f : Mat → ℕ → Mat × List ℝ × Mat) : Prop :=
  ∀ A k, 0 < k →
    (f A k).2.1.length = k ∧
    (f A k).2.2.length = k ∧
    (∀ row ∈ (f A k).2.2, row.length = cols A) ∧
    Descending (f A k).2.1

/-- Documented output contract of `scipy.linalg.svd` with
`full_matrices=False` on an `r × c` input: `s` has `min r c` entries in
descending order and `Vh` is a `min r c × c` matrix. -/
def ScipyContract (f : Mat → Mat × List ℝ × Mat) : Prop :=
  ∀ A r c, Rect r c A → 0 < r → 0 < c →
    (f A).2.1.length = min r c ∧
    Rect (min r c) c (f A).2.2 ∧
    Descending (f A).2.1

/-- `SVDBasis.generate_basis(training_data, n, method)`.  Returns the new
object state together with the raised exception, if any (on an exception the
prior state is returned unchanged, as in the source, where the `raise` sits
in the `else` branch before any assignment to `self`). -/
def generate_basis (lib : SVDLib) (self : SVDBasis) (training_data : Mat)
    (n : ℕ) (method : String) : SVDBasis × Option SVDError :=
  if method = "random" then
    -- if n == 0: n = min(training_data.shape)
    let n := if n = 0 then min training_data.length (cols training_data) else n
    let res := lib.randomized_svd training_data n
    let s := res.2.1
    -- self.Vh = Vh.astype(np.complex128): the identity here, entries are in ℂ
    let Vh := res.2.2
    -- self.V = self.Vh.T.conj()
    let V := conjT Vh
    ({ self with Vh := some Vh, V := some V, n := some n, s := some s }, none)
  else if method = "scipy" then
    let res := lib.scipy_linalg_svd training_data
    let s := res.2.1
    let Vh := res.2.2
    -- V = Vh.T.conj()
    let V := conjT Vh
    if n = 0 ∨ V.length < n then
      -- keep everything; self.n = len(self.Vh)
      ({ self with V := some V, Vh := some Vh, n := some Vh.length, s := some s }, none)
    else
      -- self.V = V[:, :n]; self.Vh = Vh[:n, :]; self.n = len(self.Vh)
      let V' := V.map (fun row => row.take n)
      let Vh' := Vh.take n
      ({ self with V := some V', Vh := some Vh', n := some Vh'.length, s := some s }, none)
  else
    (self, some (SVDError.unsupportedMethod method))

/-- The per-truncation-level statistics dictionary built by `test_basis`:
`{"s": self.s, "mismatches": {}, "max_deviations": {}}`.  The integer-keyed
Python dictionaries are association lists with insert-or-overwrite update. -/
structure TestStats where
  s : Option (List ℝ)
  mismatches : List (ℕ × List ℝ)
  max_deviations : List (ℕ × List ℝ)

/-- Insert-or-overwrite update of an association list, the behaviour of
`d[k] = v` on a Python dict. -/
def insertAssoc {α : Type} : List (ℕ × α) → ℕ → α → List (ℕ × α)
  | [], k, v => [(k, v)]
  | (k', v') :: t, k, v =>
      if k' = k then (k, v) :: t else (k', v') :: insertAssoc t k v

/-- The per-waveform `match` computed inside the `test_basis` loop:
`h_RB = h_test @ self.V[:, :n]`, `h_reconstructed = h_RB @ self.Vh[:n]`,
then `inner / np.sqrt(norm1 * norm2)`. -/
noncomputable def matchOf (V Vh : Mat) (lvl : ℕ) (h_test : List ℂ) : ℝ :=
  let h_RB := vecMatMul h_test (V.map (fun row => row.take lvl))
  let h_reconstructed := vecMatMul h_RB (Vh.take lvl)
  let norm1 := meanR (h_test.map (fun z => Complex.abs z ^ 2))
  let norm2 := meanR (h_reconstructed.map (fun z => Complex.abs z ^ 2))
  let inner := (meanC (List.zipWith (fun a b => star a * b) h_test h_reconstructed)).re
  inner / Real.sqrt (norm1 * norm2)

/-- The per-waveform `np.max(np.abs(h_test - h_reconstructed))` computed
inside the `test_basis` loop. -/
noncomputable def maxDevOf (V Vh : Mat) (lvl : ℕ) (h_test : List ℂ) : ℝ :=
  let h_RB := vecMatMul h_test (V.map (fun row => row.take lvl))
  let h_reconstructed := vecMatMul h_RB (Vh.take lvl)
  npMax (List.zipWith (fun a b => Complex.abs (a - b)) h_test h_reconstructed)

/-- `mismatches = 1 - np.array(matches)` for one truncation level. -/
noncomputable def mismatchesOf (V Vh : Mat) (lvl : ℕ) (test_data : List (List ℂ)) : List ℝ :=
  (test_data.map (matchOf V Vh lvl)).map (fun m => 1 - m)

/-- The `max_deviations` list for one truncation level. -/
noncomputable def maxDevsOf (V Vh : Mat) (lvl : ℕ) (test_data : List (List ℂ)) : List ℝ :=
  test_data.map (maxDevOf V Vh lvl)

/-- One iteration of the `for n in n_values` loop of `test_basis`:
`if n > self.n: continue`, otherwise compute the level's statistics and
store them under key `n`.  (The aggregate mean / std / max / median /
percentile values are only printed to the console and are not retained.)
An unfitted basis is read through `getD` defaults; the claims about
`test_basis` all presuppose a fitted basis, where the defaults are unused. -/
noncomputable def test_step (self : SVDBasis) (test_data : List (List ℂ))
    (ts : TestStats) (lvl : ℕ) : TestStats :=
  if self.n.getD 0 < lvl then ts
  else
    { ts with
      mismatches :=
        insertAssoc ts.mismatches lvl
          (mismatchesOf (self.V.getD []) (self.Vh.getD []) lvl test_data),
      max_deviations :=
        insertAssoc ts.max_deviations lvl
          (maxDevsOf (self.V.getD []) (self.Vh.getD []) lvl test_data) }

/-- The `test_stats` dictionary as built by the `test_basis` loop. -/
noncomputable def test_stats (self : SVDBasis) (test_data : List (List ℂ))
    (n_values : List ℕ) : TestStats :=
  n_values.foldl (test_step self test_data) ⟨self.s, [], []⟩

/-- `SVDBasis.test_basis(test_data, n_values, outfile)`.  The result records
the object state after the call (the method never assigns to `self`), the
Python return value (the function body has no `return` statement, so it
returns `None`), and the list of `(filename, payload)` pairs written by
`np.save` (one exactly when `outfile is not None`). -/
noncomputable def test_basis (self : SVDBasis) (test_data : List (List ℂ))
    (n_values : List ℕ) (outfile : Option String) :
    SVDBasis × Option TestStats × List (String × TestStats) :=
  let ts := test_stats self test_data n_values
  (self, none,
    match outfile with
    | some f => [(f, ts)]
    | none => [])

/-- `SVDBasis.decompress(coefficients)`: `coefficients @ self.Vh`. -/
def decompress (self : SVDBasis) (coefficients : Mat) : Mat :=
  matMul coefficients (self.Vh.getD [])

/-- `SVDBasis.compress(data)`: `data @ self.V`. -/
def compress (self : SVDBasis) (data : Mat) : Mat :=
  matMul data (self.V.getD [])

/-- A persisted record in the generic keyed storage (HDF5 file or plain
dictionary).  Keys `V` and (optionally) `s` are the declared `data_keys`;
the `Vh` and `n` slots stand for extraneous persisted entries that a correct
loader must ignore. -/
structure PersistedRecord where
  V : Mat
  s : Option (List ℝ)
  Vh : Option Mat
  n : Option ℕ

/-- Modelled from the spec: `DingoDataset.from_dictionary`
(`dingo.core.dataset`, not under `src/`) restores exactly the declared
`data_keys` — for `SVDBasis` these are `["V", "s"]` — onto the object and
ignores everything else in the record. -/
def DingoDataset_from_dictionary (self : SVDBasis) (rec : PersistedRecord) : SVDBasis :=
  { self with V := some rec.V, s := rec.s }

/-- Modelled from the spec: `DingoDataset.from_file` reads the keyed record
stored under the file name and restores the declared `data_keys` from it;
the file system is a map from names to records. -/
def DingoDataset_from_file (self : SVDBasis)
    (storage : String → PersistedRecord) (file_name : String) : SVDBasis :=
  DingoDataset_from_dictionary self (storage file_name)

/-- `SVDBasis.from_dictionary(dictionary)`: `super().from_dictionary(...)`,
then `self.Vh = self.V.T.conj()` and `self.n = self.V.shape[1]` (`cols`
models `shape[1]`). -/
def SVDBasis_from_dictionary (self : SVDBasis) (rec : PersistedRecord) : SVDBasis :=
  let b := DingoDataset_from_dictionary self rec
  { b with Vh := some (conjT (b.V.getD [])), n := some (cols (b.V.getD [])) }

/-- `SVDBasis.from_file(filename)`: `super().from_file(filename)`, then
`self.Vh = self.V.T.conj()` and `self.n = self.V.shape[1]`. -/
def SVDBasis_from_file (self : SVDBasis)
    (storage : String → PersistedRecord) (file_name : String) : SVDBasis :=
  let b := DingoDataset_from_file self storage file_name
  { b with Vh := some (conjT (b.V.getD [])), n := some (cols (b.V.getD [])) }

/-- The `ApplySVD` transform operator: binds a basis and a direction flag. -/
structure ApplySVD where
  svd_basis : SVDBasis
  inverse : Bool

/-- `ApplySVD.__call__(waveform)`: pick `compress` or `decompress` by the
`inverse` flag and apply it to every value of the keyed mapping, keeping
the keys. -/
def ApplySVD.call (t : ApplySVD) (waveform : List (String × Mat)) : List (String × Mat) :=
  let func := if t.inverse then decompress t.svd_basis else compress t.svd_basis
  waveform.map (fun kv => (kv.1, func kv.2))

/-- Following the spec's words (refinement target for `test_basis`):
`h_rec = (h · V[:, :n]) · Vh[:n, :]`. -/
def spec_h_rec (V Vh : Mat) (lvl : ℕ) (h : List ℂ) : List ℂ :=
  vecMatMul (vecMatMul h (V.map (fun row => row.take lvl))) (Vh.take lvl)

/-- Following the spec's words: the per-sample mismatch
`1 - Re(mean(conj(h) * h_rec)) / sqrt(mean(|h|^2) * mean(|h_rec|^2))`. -/
noncomputable def spec_mismatch (V Vh : Mat) (lvl : ℕ) (h : List ℂ) : ℝ :=
  1 - (meanC (List.zipWith (fun a b => star a * b) h (spec_h_rec V Vh lvl h))).re /
      Real.sqrt (meanR (h.map (fun z => Complex.abs z ^ 2)) *
        meanR ((spec_h_rec V Vh lvl h).map (fun z => Complex.abs z ^ 2)))

/-- Following the spec's words: the per-sample `max(|h - h_rec|)`. -/
noncomputable def spec_maxdev (V Vh : Mat) (lvl : ℕ) (h : List ℂ) : ℝ :=
  npMax (List.zipWith (fun a b => Complex.abs (a - b)) h (spec_h_rec V Vh lvl h))

/-- The claimed post-fit coherence of the stored fields: `Vh` is the
conjugate transpose of `V`, and `n` equals `V.shape[1]` and `Vh.shape[0]`. -/
def FittedCoherent (b : SVDBasis) : Prop :=
  ∃ V Vh nn, b.V = some V ∧ b.Vh = some Vh ∧ b.n = some nn ∧
    Vh = conjT V ∧ nn = cols V ∧ nn = Vh.length

/-- Method-name string constants (so that theorem statements stay plain). -/
def sRandom : String := "random"

/-- The source's name for the exact-SVD path. -/
def sScipy : String := "scipy"

/-- The spec's name for the exact-SVD path, not accepted by the source. -/
def sExact : String := "exact"

/-- A concrete output file name. -/
def outName : String := "svd_test_stats.npy"

/-- A concrete waveform-mapping key. -/
def keyA : String := "h_plus"

/-- A concrete file name for the persisted-basis instances. -/
def fnW : String := "svd_basis.hdf5"

/-- A concrete 1 × 1 training matrix. -/
def mat1 : Mat := [[1]]

/-- A concrete 2 × 2 training matrix. -/
def matId2 : Mat := [[1, 0], [0, 1]]

/-- A concrete instantiation of the external SVD routines that satisfies the
documented shape contracts (the singular values and vectors it returns are
placeholders: the claims settled against the contracts only concern output
shapes, never the numerical content of a factorisation). -/
def stubLib : SVDLib :=
  ⟨fun A k =>
      (List.replicate A.length (List.replicate k 0),
       List.replicate k 0,
       List.replicate k (List.replicate (cols A) 0)),
   fun A =>
      (List.replicate A.length (List.replicate (min A.length (cols A)) 0),
       List.replicate (min A.length (cols A)) 0,
       List.replicate (min A.length (cols A)) (List.replicate (cols A) 0))⟩

/-- A concrete fitted basis (1 component over 1 feature). -/
def bFit : SVDBasis := ⟨some [[1]], some [[1]], some [1], some 1⟩

/-- A concrete persisted record carrying extraneous (stale) `Vh` and `n`
entries that a correct loader must ignore. -/
def recW : PersistedRecord := ⟨[[1]], none, some [[5]], some 99⟩

/-- A concrete persisted record agreeing with `recW` on the data keys `V`
and `s` but carrying different extraneous entries. -/
def recW2 : PersistedRecord := ⟨[[1]], none, none, none⟩

/-- A concrete storage: every file name holds `recW`. -/
def storageW : String → PersistedRecord := fun _ => recW

/-- A concrete keyed waveform mapping. -/
def wMap : List (String × Mat) := [(keyA, [[1]])]

theorem cols_of_rect {r c : ℕ} {M : Mat} (hM : Rect r c M) (hr : 0 < r) : cols M = c := by
  obtain ⟨hlen, hrow⟩ := hM
  cases M with
  | nil => simp at hlen; omega
  | cons a t => exact hrow a (List.mem_cons_self a t)

theorem map_range_getD {α : Type} (l : List α) (d : α) :
    (List.range l.length).map (fun j => l.getD j d) = l := by
  induction l with
  | nil => simp
  | cons a t ih =>
      simp only [List.length_cons, List.range_succ_eq_map, List.map_cons, List.map_map]
      show a :: (List.range t.length).map (fun j => t.getD j d) = a :: t
      rw [ih]

theorem length_conjT (M : Mat) : (conjT M).length = cols M := by
  simp [conjT]

theorem rect_conjT {r c : ℕ} {M : Mat} (hM : Rect r c M) (hr : 0 < r) :
    Rect c r (conjT M) := by
  constructor
  · rw [length_conjT, cols_of_rect hM hr]
  · intro row hrow
    simp only [conjT, List.mem_map] at hrow
    obtain ⟨j, _, rfl⟩ := hrow
    simp [hM.1]

theorem getD_map_of_lt {α β : Type} (f : α → β) (l : List α) (i : ℕ) (d : β) (d' : α)
    (hi : i < l.length) : (l.map f).getD i d = f (l.getD i d') := by
  rw [List.getD_eq_getElem _ _ (by simpa using hi), List.getD_eq_getElem _ _ hi,
    List.getElem_map]

theorem getElem_conjT (M : Mat) (i : ℕ) (h : i < (conjT M).length) :
    (conjT M)[i] = M.map (fun row => star (row.getD i 0)) := by
  simp only [conjT] at h ⊢
  rw [List.getElem_map, List.getElem_range]

theorem conjT_conjT {r c : ℕ} {M : Mat} (hM : Rect r c M) (hr : 0 < r) (hc : 0 < c) :
    conjT (conjT M) = M := by
  have hcols : cols M = c := cols_of_rect hM hr
  have hrect2 : Rect c r (conjT M) := rect_conjT hM hr
  have hcols2 : cols (conjT M) = r := cols_of_rect hrect2 hc
  apply List.ext_getElem
  · rw [length_conjT, hcols2, hM.1]
  · intro i h1 h2
    have hiM : i < M.length := h2
    have hrowlen : M[i].length = c := hM.2 _ (List.getElem_mem hiM)
    rw [getElem_conjT]
    rw [conjT, List.map_map, hcols]
    have hfun : ((fun row => star (row.getD i 0)) ∘
        (fun j => M.map (fun row => star (row.getD j (0:ℂ))))) =
        fun j => M[i].getD j (0:ℂ) := by
      funext j
      simp only [Function.comp]
      rw [getD_map_of_lt _ _ _ _ ([] : List ℂ) hiM]
      rw [List.getD_eq_getElem _ _ hiM, star_star]
    rw [hfun, ← hrowlen]
    exact map_range_getD _ _

theorem cols_take {n : ℕ} (hn : 0 < n) (M : Mat) : cols (M.take n) = cols M := by
  cases M with
  | nil => simp
  | cons a t =>
      cases n with
      | zero => omega
      | succ m => simp [cols]

theorem conjT_map_take {n : ℕ} (hn : 0 < n) (M : Mat) :
    (conjT M).map (fun row => row.take n) = conjT (M.take n) := by
  simp only [conjT, List.map_map, cols_take hn]
  apply List.map_congr_left
  intro j hj
  simp only [Function.comp]
  rw [List.map_take]

theorem rect_take {r c : ℕ} {M : Mat} (n : ℕ) (hM : Rect r c M) :
    Rect (min n r) c (M.take n) := by
  constructor
  · simp [hM.1]
  · intro row hrow
    exact hM.2 row (List.take_subset n M hrow)

theorem descending_replicate (k : ℕ) (x : ℝ) : Descending (List.replicate k x) := by
  induction k with
  | zero => simp [Descending]
  | succ m ih =>
      rw [List.replicate_succ]
      cases m with
      | zero => simp [Descending]
      | succ m' =>
          rw [List.replicate_succ]
          refine List.chain'_cons.mpr ⟨le_refl x, ?_⟩
          rw [← List.replicate_succ]
          exact ih

theorem lookup_insertAssoc_self {α : Type} (d : List (ℕ × α)) (k : ℕ) (v : α) :
    (insertAssoc d k v).lookup k = some v := by
  induction d with
  | nil => simp [insertAssoc, List.lookup]
  | cons p t ih =>
      obtain ⟨k', v'⟩ := p
      by_cases h : k' = k
      · subst h
        simp [insertAssoc, List.lookup]
      · simp only [insertAssoc, if_neg h]
        have hb : (k == k') = false := beq_eq_false_iff_ne.mpr (Ne.symm h)
        simp [List.lookup, hb, ih]

theorem lookup_insertAssoc_ne {α : Type} (d : List (ℕ × α)) (k k' : ℕ) (v : α)
    (h : k' ≠ k) : (insertAssoc d k v).lookup k' = d.lookup k' := by
  induction d with
  | nil =>
      have hb : (k' == k) = false := beq_eq_false_iff_ne.mpr h
      simp [insertAssoc, List.lookup, hb]
  | cons p t ih =>
      obtain ⟨k'', v''⟩ := p
      by_cases h2 : k'' = k
      · subst h2
        have hb : (k' == k'') = false := beq_eq_false_iff_ne.mpr h
        simp [insertAssoc, List.lookup, hb]
      · simp only [insertAssoc, if_neg h2]
        by_cases h3 : k' = k''
        · subst h3
          simp [List.lookup]
        · have hb : (k' == k'') = false := beq_eq_false_iff_ne.mpr h3
          simp [List.lookup, hb, ih]

theorem stubRsvd_contract : RsvdContract stubLib.randomized_svd := by
  intro A k hk
  refine ⟨by simp [stubLib], by simp [stubLib], ?_, ?_⟩
  · intro row hrow
    have hmem : row ∈ List.replicate k (List.replicate (cols A) (0:ℂ)) := hrow
    have hr : row = List.replicate (cols A) 0 := List.eq_of_mem_replicate hmem
    simp [hr]
  · show Descending (List.replicate k 0)
    exact descending_replicate k 0

theorem stubScipy_contract : ScipyContract stubLib.scipy_linalg_svd := by
  intro A r c hA hr hc
  have hlen : A.length = r := hA.1
  have hcols : cols A = c := cols_of_rect hA hr
  refine ⟨?_, ⟨?_, ?_⟩, ?_⟩
  · show (List.replicate (min A.length (cols A)) (0:ℝ)).length = min r c
    simp [hlen, hcols]
  · show (List.replicate (min A.length (cols A)) (List.replicate (cols A) (0:ℂ))).length = min r c
    simp [hlen, hcols]
  · intro row hrow
    have hmem : row ∈ List.replicate (min A.length (cols A)) (List.replicate (cols A) (0:ℂ)) := hrow
    have hre : row = List.replicate (cols A) 0 := List.eq_of_mem_replicate hmem
    simp [hre, hcols]
  · show Descending (List.replicate (min A.length (cols A)) 0)
    exact descending_replicate _ _

theorem lookup_foldl_test_step (b : SVDBasis) (td : List (List ℂ)) (lvl : ℕ)
    (hle : lvl ≤ b.n.getD 0) (ns : List ℕ) :
    ∀ ts : TestStats,
      (lvl ∈ ns ∨
        (ts.mismatches.lookup lvl =
            some (mismatchesOf (b.V.getD []) (b.Vh.getD []) lvl td) ∧
         ts.max_deviations.lookup lvl =
            some (maxDevsOf (b.V.getD []) (b.Vh.getD []) lvl td))) →
      ((ns.foldl (test_step b td) ts).mismatches.lookup lvl =
          some (mismatchesOf (b.V.getD []) (b.Vh.getD []) lvl td) ∧
       (ns.foldl (test_step b td) ts).max_deviations.lookup lvl =
          some (maxDevsOf (b.V.getD []) (b.Vh.getD []) lvl td)) := by
  induction ns with
  | nil =>
      intro ts h
      rcases h with h | h
      · simp at h
      · simpa using h
  | cons x t ih =>
      intro ts h
      simp only [List.foldl_cons]
      apply ih
      rcases h with hmem | hold
      · rcases List.mem_cons.mp hmem with rfl | hmem'
        · right
          unfold test_step
          rw [if_neg (by omega : ¬ b.n.getD 0 < lvl)]
          exact ⟨lookup_insertAssoc_self _ _ _, lookup_insertAssoc_self _ _ _⟩
        · left
          exact hmem'
      · right
        unfold test_step
        by_cases hskip : b.n.getD 0 < x
        · rw [if_pos hskip]
          exact hold
        · rw [if_neg hskip]
          by_cases hxl : x = lvl
          · subst hxl
            exact ⟨lookup_insertAssoc_self _ _ _, lookup_insertAssoc_self _ _ _⟩
          · refine ⟨?_, ?_⟩
            · rw [show ({ ts with
                  mismatches := insertAssoc ts.mismatches x
                    (mismatchesOf (b.V.getD []) (b.Vh.getD []) x td),
                  max_deviations := insertAssoc ts.max_deviations x
                    (maxDevsOf (b.V.getD []) (b.Vh.getD []) x td) } : TestStats).mismatches =
                insertAssoc ts.mismatches x
                  (mismatchesOf (b.V.getD []) (b.Vh.getD []) x td) from rfl]
              rw [lookup_insertAssoc_ne _ _ _ _ (Ne.symm hxl)]
              exact hold.1
            · rw [show ({ ts with
                  mismatches := insertAssoc ts.mismatches x
                    (mismatchesOf (b.V.getD []) (b.Vh.getD []) x td),
                  max_deviations := insertAssoc ts.max_deviations x
                    (maxDevsOf (b.V.getD []) (b.Vh.getD []) x td) } : TestStats).max_deviations =
                insertAssoc ts.max_deviations x
                  (maxDevsOf (b.V.getD []) (b.Vh.getD []) x td) from rfl]
              rw [lookup_insertAssoc_ne _ _ _ _ (Ne.symm hxl)]
              exact hold.2

theorem lookup_foldl_test_step_none (b : SVDBasis) (td : List (List ℂ)) (lvl : ℕ)
    (hgt : b.n.getD 0 < lvl) (ns : List ℕ) :
    ∀ ts : TestStats,
      ts.mismatches.lookup lvl = none →
      ts.max_deviations.lookup lvl = none →
      ((ns.foldl (test_step b td) ts).mismatches.lookup lvl = none ∧
       (ns.foldl (test_step b td) ts).max_deviations.lookup lvl = none) := by
  induction ns with
  | nil =>
      intro ts h1 h2
      exact ⟨h1, h2⟩
  | cons x t ih =>
      intro ts h1 h2
      simp only [List.foldl_cons]
      by_cases hskip : b.n.getD 0 < x
      · have hstep : test_step b td ts x = ts := by
          unfold test_step
          rw [if_pos hskip]
        rw [hstep]
        exact ih ts h1 h2
      · have hxl : lvl ≠ x := by omega
        have hstep : test_step b td ts x = { ts with
            mismatches := insertAssoc ts.mismatches x
              (mismatchesOf (b.V.getD []) (b.Vh.getD []) x td),
            max_deviations := insertAssoc ts.max_deviations x
              (maxDevsOf (b.V.getD []) (b.Vh.getD []) x td) } := by
          unfold test_step
          rw [if_neg hskip]
        apply ih
        · rw [hstep]
          show (insertAssoc ts.mismatches x
              (mismatchesOf (b.V.getD []) (b.Vh.getD []) x td)).lookup lvl = none
          rw [lookup_insertAssoc_ne _ _ _ _ hxl]
          exact h1
        · rw [hstep]
          show (insertAssoc ts.max_deviations x
              (maxDevsOf (b.V.getD []) (b.Vh.getD []) x td)).lookup lvl = none
          rw [lookup_insertAssoc_ne _ _ _ _ hxl]
          exact h2

theorem foldl_test_step_filter (b : SVDBasis) (td : List (List ℂ)) (ns : List ℕ) :
    ∀ ts : TestStats,
      ns.foldl (test_step b td) ts =
        (ns.filter (fun l => decide (l ≤ b.n.getD 0))).foldl (test_step b td) ts := by
  induction ns with
  | nil =>
      intro ts
      rfl
  | cons x t ih =>
      intro ts
      by_cases hskip : b.n.getD 0 < x
      · have hstep : test_step b td ts x = ts := by
          unfold test_step
          rw [if_pos hskip]
        have hfd : decide (x ≤ b.n.getD 0) = false := by
          simp only [decide_eq_false_iff_not]
          omega
        calc (x :: t).foldl (test_step b td) ts
            = t.foldl (test_step b td) ts := by
              simp only [List.foldl_cons, hstep]
          _ = (t.filter (fun l => decide (l ≤ b.n.getD 0))).foldl (test_step b td) ts := ih ts
          _ = ((x :: t).filter (fun l => decide (l ≤ b.n.getD 0))).foldl (test_step b td) ts := by
              simp [List.filter_cons, hfd]
      · have hfd : decide (x ≤ b.n.getD 0) = true := decide_eq_true (by omega)
        simp only [List.foldl_cons, List.filter_cons, hfd, if_true]
        exact ih (test_step b td ts x)

theorem mismatchesOf_eq_spec (V Vh : Mat) (lvl : ℕ) (td : List (List ℂ)) :
    mismatchesOf V Vh lvl td = td.map (spec_mismatch V Vh lvl) := by
  unfold mismatchesOf
  rw [List.map_map]
  apply List.map_congr_left
  intro h hh
  rfl

theorem maxDevsOf_eq_spec (V Vh : Mat) (lvl : ℕ) (td : List (List ℂ)) :
    maxDevsOf V Vh lvl td = td.map (spec_maxdev V Vh lvl) := by
  unfold maxDevsOf
  apply List.map_congr_left
  intro h hh
  rfl

theorem generate_basis_random (lib : SVDLib) (b : SVDBasis) (A : Mat) (n : ℕ) :
    generate_basis lib b A n sRandom =
      ({ b with
          Vh := some (lib.randomized_svd A (if n = 0 then min A.length (cols A) else n)).2.2,
          V := some (conjT (lib.randomized_svd A (if n = 0 then min A.length (cols A) else n)).2.2),
          n := some (if n = 0 then min A.length (cols A) else n),
          s := some (lib.randomized_svd A (if n = 0 then min A.length (cols A) else n)).2.1 },
        none) := by
  rfl

theorem generate_basis_scipy_keep (lib : SVDLib) (b : SVDBasis) (A : Mat) (n : ℕ)
    (hcond : n = 0 ∨ (conjT (lib.scipy_linalg_svd A).2.2).length < n) :
    generate_basis lib b A n sScipy =
      ({ b with
          V := some (conjT (lib.scipy_linalg_svd A).2.2),
          Vh := some (lib.scipy_linalg_svd A).2.2,
          n := some (lib.scipy_linalg_svd A).2.2.length,
          s := some (lib.scipy_linalg_svd A).2.1 },
        none) := by
  show (if (sScipy : String) = "random" then _ else _) = _
  rw [if_neg (by decide : ¬ (sScipy : String) = "random")]
  show (if (sScipy : String) = "scipy" then _ else _) = _
  rw [if_pos (by decide : (sScipy : String) = "scipy")]
  show (if n = 0 ∨ (conjT (lib.scipy_linalg_svd A).2.2).length < n then _ else _) = _
  rw [if_pos hcond]

theorem generate_basis_scipy_trunc (lib : SVDLib) (b : SVDBasis) (A : Mat) (n : ℕ)
    (hcond : ¬ (n = 0 ∨ (conjT (lib.scipy_linalg_svd A).2.2).length < n)) :
    generate_basis lib b A n sScipy =
      ({ b with
          V := some ((conjT (lib.scipy_linalg_svd A).2.2).map (fun row => row.take n)),
          Vh := some ((lib.scipy_linalg_svd A).2.2.take n),
          n := some ((lib.scipy_linalg_svd A).2.2.take n).length,
          s := some (lib.scipy_linalg_svd A).2.1 },
        none) := by
  show (if (sScipy : String) = "random" then _ else _) = _
  rw [if_neg (by decide : ¬ (sScipy : String) = "random")]
  show (if (sScipy : String) = "scipy" then _ else _) = _
  rw [if_pos (by decide : (sScipy : String) = "scipy")]
  show (if n = 0 ∨ (conjT (lib.scipy_linalg_svd A).2.2).length < n then _ else _) = _
  rw [if_neg hcond]

theorem generate_basis_unsupported (lib : SVDLib) (b : SVDBasis) (A : Mat) (n : ℕ)
    (method : String) (h1 : method ≠ "random") (h2 : method ≠ "scipy") :
    generate_basis lib b A n method = (b, some (SVDError.unsupportedMethod method)) := by
  unfold generate_basis
  rw [if_neg h1, if_neg h2]

theorem rect_mat1 : Rect 1 1 mat1 := by
  refine ⟨rfl, ?_⟩
  intro row h
  have h2 : row ∈ [[(1:ℂ)]] := h
  rw [List.mem_singleton] at h2
  subst h2
  rfl

theorem rect_matId2 : Rect 2 2 matId2 := by
  refine ⟨rfl, ?_⟩
  intro row h
  have h2 : row ∈ [[(1:ℂ), 0], [0, 1]] := h
  rcases List.mem_cons.mp h2 with rfl | h3
  · rfl
  · rw [List.mem_singleton] at h3
    subst h3
    rfl

theorem rect_recW : Rect 1 1 recW.V := by
  refine ⟨rfl, ?_⟩
  intro row h
  have h2 : row ∈ [[(1:ℂ)]] := h
  rw [List.mem_singleton] at h2
  subst h2
  rfl

/-- Claim C1, amended: the method strings the source accepts are "random"
and "scipy" (the spec's name "exact" for the exact-SVD path is not an
accepted selector).  For every training matrix and every n, calling
`generate_basis` with a method string that is neither "random" nor "scipy"
fails with the unsupported-method error (a `ValueError` carrying
"Unsupported SVD method", which the spec calls `UnsupportedMethodError`),
leaving the fields `V`, `Vh`, `s`, `n` exactly as they were before the call;
calling it with "random" or "scipy" does not raise that error. -/
theorem C1_unsupported_method (lib : SVDLib) (b : SVDBasis) (A : Mat) (n : ℕ)
    (method : String) :
    (method ≠ "random" → method ≠ "scipy" →
      generate_basis lib b A n method = (b, some (SVDError.unsupportedMethod method))) ∧
    ((method = "random" ∨ method = "scipy") →
      (generate_basis lib b A n method).2 = none) := by
  constructor
  · intro h1 h2
    exact generate_basis_unsupported lib b A n method h1 h2
  · rintro (rfl | rfl)
    · show (generate_basis lib b A n sRandom).2 = none
      rw [generate_basis_random]
    · show (generate_basis lib b A n sScipy).2 = none
      by_cases hcond : n = 0 ∨ (conjT (lib.scipy_linalg_svd A).2.2).length < n
      · rw [generate_basis_scipy_keep lib b A n hcond]
      · rw [generate_basis_scipy_trunc lib b A n hcond]

/-- Claim C1 witness: at the method string "exact" the call fails with the
unsupported-method error without touching the state, and at "random" no
such error is raised. -/
theorem C1_unsupported_method_witness :
    generate_basis stubLib initBasis mat1 1 sExact =
      (initBasis, some (SVDError.unsupportedMethod sExact)) ∧
    (generate_basis stubLib initBasis mat1 1 sRandom).2 = none := by
  constructor
  · exact (C1_unsupported_method stubLib initBasis mat1 1 sExact).1 (by decide) (by decide)
  · exact (C1_unsupported_method stubLib initBasis mat1 1 sRandom).2 (Or.inl rfl)

/-- Claim C1 counterexample: contrary to the claim as stated, the method
string "exact" does raise the unsupported-method error (the source's name
for the exact-SVD path is "scipy"). -/
theorem C1_exact_is_rejected :
    generate_basis stubLib initBasis mat1 1 sExact =
      (initBasis, some (SVDError.unsupportedMethod sExact)) :=
  generate_basis_unsupported stubLib initBasis mat1 1 sExact (by decide) (by decide)

/-- Claim C3, amended: the exact-SVD path is selected by the method string
"scipy", not "exact".  With that method the call computes the full SVD and
truncates to the first n components (in the descending-singular-value order
the routine returns) when 0 < n ≤ min(n_samples, n_features), keeps all
components when n = 0 or n exceeds that available component count, and in
every case stores n equal to the number of retained components. -/
theorem C3_scipy_truncation (lib : SVDLib)
    (hsci : ScipyContract lib.scipy_linalg_svd)
    (b : SVDBasis) (A : Mat) (r c n : ℕ)
    (hA : Rect r c A) (hr : 0 < r) (hc : 0 < c) :
    (0 < n → n ≤ min r c →
      (generate_basis lib b A n sScipy).1.Vh =
        some ((lib.scipy_linalg_svd A).2.2.take n) ∧
      (generate_basis lib b A n sScipy).1.n = some n) ∧
    ((n = 0 ∨ min r c < n) →
      (generate_basis lib b A n sScipy).1.Vh = some (lib.scipy_linalg_svd A).2.2 ∧
      (generate_basis lib b A n sScipy).1.n = some (min r c)) ∧
    (∃ m, (generate_basis lib b A n sScipy).1.Vh = some m ∧
      (generate_basis lib b A n sScipy).1.n = some m.length) := by
  obtain ⟨hslen, hVhrect, hdesc⟩ := hsci A r c hA hr hc
  have hk : 0 < min r c := lt_min hr hc
  have hklen : (lib.scipy_linalg_svd A).2.2.length = min r c := hVhrect.1
  have hVlen : (conjT (lib.scipy_linalg_svd A).2.2).length = c := by
    rw [length_conjT]
    exact cols_of_rect hVhrect hk
  refine ⟨?_, ?_, ?_⟩
  · intro hn hnk
    have hcond : ¬ (n = 0 ∨ (conjT (lib.scipy_linalg_svd A).2.2).length < n) := by
      rintro (h0 | hlt)
      · omega
      · rw [hVlen] at hlt
        have hc2 : n ≤ c := le_trans hnk (min_le_right r c)
        omega
    rw [generate_basis_scipy_trunc lib b A n hcond]
    refine ⟨rfl, ?_⟩
    have hlen : ((lib.scipy_linalg_svd A).2.2.take n).length = n := by
      rw [List.length_take, hklen]
      omega
    rw [hlen]
  · intro hor
    rcases hor with h0 | hkn
    · rw [generate_basis_scipy_keep lib b A n (Or.inl h0)]
      exact ⟨rfl, by rw [hklen]⟩
    · by_cases hcn : c < n
      · have hcond : n = 0 ∨ (conjT (lib.scipy_linalg_svd A).2.2).length < n := by
          right
          rw [hVlen]
          exact hcn
        rw [generate_basis_scipy_keep lib b A n hcond]
        exact ⟨rfl, by rw [hklen]⟩
      · have hcond : ¬ (n = 0 ∨ (conjT (lib.scipy_linalg_svd A).2.2).length < n) := by
          rintro (h0 | hlt)
          · omega
          · rw [hVlen] at hlt
            omega
        rw [generate_basis_scipy_trunc lib b A n hcond]
        have htake : (lib.scipy_linalg_svd A).2.2.take n = (lib.scipy_linalg_svd A).2.2 := by
          apply List.take_of_length_le
          rw [hklen]
          omega
        rw [htake]
        exact ⟨rfl, by rw [hklen]⟩
  · by_cases hcond : n = 0 ∨ (conjT (lib.scipy_linalg_svd A).2.2).length < n
    · rw [generate_basis_scipy_keep lib b A n hcond]
      exact ⟨(lib.scipy_linalg_svd A).2.2, rfl, rfl⟩
    · rw [generate_basis_scipy_trunc lib b A n hcond]
      exact ⟨(lib.scipy_linalg_svd A).2.2.take n, rfl, rfl⟩

/-- Claim C3 witness: on a concrete 2 × 2 matrix, method "scipy" with n = 1
keeps the first component and stores n = 1, and with n = 0 keeps both
components. -/
theorem C3_scipy_truncation_witness :
    ((generate_basis stubLib initBasis matId2 1 sScipy).1.Vh =
        some ((stubLib.scipy_linalg_svd matId2).2.2.take 1) ∧
      (generate_basis stubLib initBasis matId2 1 sScipy).1.n = some 1) ∧
    ((generate_basis stubLib initBasis matId2 0 sScipy).1.Vh =
        some (stubLib.scipy_linalg_svd matId2).2.2 ∧
      (generate_basis stubLib initBasis matId2 0 sScipy).1.n = some (min 2 2)) := by
  constructor
  · exact (C3_scipy_truncation stubLib stubScipy_contract initBasis matId2 2 2 1
      rect_matId2 (by decide) (by decide)).1 (by decide) (by decide)
  · exact (C3_scipy_truncation stubLib stubScipy_contract initBasis matId2 2 2 0
      rect_matId2 (by decide) (by decide)).2.1 (Or.inl rfl)

/-- Claim C3 counterexample: contrary to the claim as stated, calling fit
with the method string "exact" does not compute any SVD: it raises the
unsupported-method error and stores nothing. -/
theorem C3_exact_not_accepted :
    generate_basis stubLib initBasis matId2 2 sExact =
      (initBasis, some (SVDError.unsupportedMethod sExact)) :=
  generate_basis_unsupported stubLib initBasis matId2 2 sExact (by decide) (by decide)

/-- Claim C4, amended: after every successful fit the stored singular values
are in descending order (by the documented contracts of the SVD routines),
and for the "random" method `s` has exactly `n` entries, matching the
stored `n`; but for the "scipy" (exact) method `self.s = s` keeps the full
spectrum of min(n_samples, n_features) singular values, so `s` has more
entries than the stored `n` whenever truncation occurs. -/
theorem C4_singular_value_layout (lib : SVDLib)
    (hrand : RsvdContract lib.randomized_svd)
    (hsci : ScipyContract lib.scipy_linalg_svd)
    (b : SVDBasis) (A : Mat) (r c n : ℕ)
    (hA : Rect r c A) (hr : 0 < r) (hc : 0 < c) :
    (∃ s, (generate_basis lib b A n sRandom).1.s = some s ∧ Descending s ∧
      s.length = (if n = 0 then min r c else n) ∧
      (generate_basis lib b A n sRandom).1.n = some (if n = 0 then min r c else n)) ∧
    (∃ s, (generate_basis lib b A n sScipy).1.s = some s ∧ Descending s ∧
      s.length = min r c ∧
      ∃ nn, (generate_basis lib b A n sScipy).1.n = some nn ∧ nn ≤ min r c) := by
  have hAl : A.length = r := hA.1
  have hAc : cols A = c := cols_of_rect hA hr
  constructor
  · rw [generate_basis_random, hAl, hAc]
    have hk : 0 < (if n = 0 then min r c else n) := by
      by_cases h0 : n = 0
      · rw [if_pos h0]
        exact lt_min hr hc
      · rw [if_neg h0]
        omega
    obtain ⟨hs, hVh, hrow, hdesc⟩ := hrand A (if n = 0 then min r c else n) hk
    exact ⟨_, rfl, hdesc, hs, rfl⟩
  · obtain ⟨hslen, hVhrect, hdesc⟩ := hsci A r c hA hr hc
    by_cases hcond : n = 0 ∨ (conjT (lib.scipy_linalg_svd A).2.2).length < n
    · rw [generate_basis_scipy_keep lib b A n hcond]
      refine ⟨_, rfl, hdesc, hslen, (lib.scipy_linalg_svd A).2.2.length, rfl, ?_⟩
      rw [hVhrect.1]
    · rw [generate_basis_scipy_trunc lib b A n hcond]
      refine ⟨_, rfl, hdesc, hslen, ((lib.scipy_linalg_svd A).2.2.take n).length, rfl, ?_⟩
      rw [List.length_take, hVhrect.1]
      omega

/-- Claim C4 witness: the amended statement evaluated on a concrete 2 × 2
matrix with n = 1. -/
theorem C4_singular_value_layout_witness :
    (∃ s, (generate_basis stubLib initBasis matId2 1 sRandom).1.s = some s ∧
      Descending s ∧ s.length = (if 1 = 0 then min 2 2 else 1) ∧
      (generate_basis stubLib initBasis matId2 1 sRandom).1.n =
        some (if 1 = 0 then min 2 2 else 1)) ∧
    (∃ s, (generate_basis stubLib initBasis matId2 1 sScipy).1.s = some s ∧
      Descending s ∧ s.length = min 2 2 ∧
      ∃ nn, (generate_basis stubLib initBasis matId2 1 sScipy).1.n = some nn ∧
        nn ≤ min 2 2) :=
  C4_singular_value_layout stubLib stubRsvd_contract stubScipy_contract initBasis
    matId2 2 2 1 rect_matId2 (by decide) (by decide)

/-- Claim C4 counterexample: contrary to the claim as stated, after a
successful "scipy" fit of a 2 × 2 matrix with n = 1 the stored n is 1 but
the stored s keeps 2 entries (the code stores the full spectrum without
truncating it). -/
theorem C4_s_not_truncated :
    (generate_basis stubLib initBasis matId2 1 sScipy).1.n = some 1 ∧
    ((generate_basis stubLib initBasis matId2 1 sScipy).1.s.getD []).length = 2 := by
  constructor
  · rfl
  · rfl

/-- Claim C5: with method "random", n = 0 retains exactly
min(n_samples, n_features) components, and n > 0 retains exactly n
components; the stored n field equals that component count (assuming the
documented output shape of `randomized_svd`). -/
theorem C5_random_component_count (lib : SVDLib)
    (hrand : RsvdContract lib.randomized_svd)
    (b : SVDBasis) (A : Mat) (r c n : ℕ)
    (hA : Rect r c A) (hr : 0 < r) (hc : 0 < c) :
    (n = 0 → ∃ m, (generate_basis lib b A n sRandom).1.Vh = some m ∧
      m.length = min r c ∧
      (generate_basis lib b A n sRandom).1.n = some (min r c)) ∧
    (0 < n → ∃ m, (generate_basis lib b A n sRandom).1.Vh = some m ∧
      m.length = n ∧
      (generate_basis lib b A n sRandom).1.n = some n) := by
  have hAl : A.length = r := hA.1
  have hAc : cols A = c := cols_of_rect hA hr
  constructor
  · intro h0
    subst h0
    rw [generate_basis_random, hAl, hAc, if_pos rfl]
    obtain ⟨hs, hVh, hrow, hdesc⟩ := hrand A (min r c) (lt_min hr hc)
    exact ⟨_, rfl, hVh, rfl⟩
  · intro hn
    rw [generate_basis_random, hAl, hAc, if_neg (by omega : ¬ n = 0)]
    obtain ⟨hs, hVh, hrow, hdesc⟩ := hrand A n hn
    exact ⟨_, rfl, hVh, rfl⟩

/-- Claim C5 witness: on a concrete 2 × 2 matrix, n = 0 retains min 2 2
components and n = 1 retains exactly 1. -/
theorem C5_random_component_count_witness :
    (∃ m, (generate_basis stubLib initBasis matId2 0 sRandom).1.Vh = some m ∧
      m.length = min 2 2 ∧
      (generate_basis stubLib initBasis matId2 0 sRandom).1.n = some (min 2 2)) ∧
    (∃ m, (generate_basis stubLib initBasis matId2 1 sRandom).1.Vh = some m ∧
      m.length = 1 ∧
      (generate_basis stubLib initBasis matId2 1 sRandom).1.n = some 1) := by
  constructor
  · exact (C5_random_component_count stubLib stubRsvd_contract initBasis matId2 2 2 0
      rect_matId2 (by decide) (by decide)).1 rfl
  · exact (C5_random_component_count stubLib stubRsvd_contract initBasis matId2 2 2 1
      rect_matId2 (by decide) (by decide)).2 (by decide)

/-- Claim C6: after every successful fit (either method, assuming the
documented shape contracts of the two SVD routines), and after every load
from file or dictionary, `Vh` equals the conjugate transpose of `V` and
`n = V.shape[1] = Vh.shape[0]`.  (The generic loader is modelled from the
spec, since `dingo.core.dataset` is not part of the given source.) -/
theorem C6_fitted_coherence (lib : SVDLib)
    (hrand : RsvdContract lib.randomized_svd)
    (hsci : ScipyContract lib.scipy_linalg_svd)
    (b : SVDBasis) (A : Mat) (r c n : ℕ) (method : String)
    (hA : Rect r c A) (hr : 0 < r) (hc : 0 < c)
    (hok : (generate_basis lib b A n method).2 = none) :
    FittedCoherent (generate_basis lib b A n method).1 ∧
    (∀ (b₀ : SVDBasis) (rec : PersistedRecord),
      FittedCoherent (SVDBasis_from_dictionary b₀ rec)) ∧
    (∀ (b₀ : SVDBasis) (storage : String → PersistedRecord) (fn : String),
      FittedCoherent (SVDBasis_from_file b₀ storage fn)) := by
  refine ⟨?_, ?_, ?_⟩
  · by_cases hm1 : method = "random"
    · subst hm1
      show FittedCoherent (generate_basis lib b A n sRandom).1
      rw [generate_basis_random]
      have hk : 0 < (if n = 0 then min A.length (cols A) else n) := by
        by_cases h0 : n = 0
        · rw [if_pos h0, hA.1, cols_of_rect hA hr]
          exact lt_min hr hc
        · rw [if_neg h0]
          omega
      obtain ⟨hs, hVhlen, hVhrow, hdesc⟩ :=
        hrand A (if n = 0 then min A.length (cols A) else n) hk
      have hrect : Rect (if n = 0 then min A.length (cols A) else n) c
          (lib.randomized_svd A (if n = 0 then min A.length (cols A) else n)).2.2 := by
        refine ⟨hVhlen, ?_⟩
        intro row hrow
        rw [hVhrow row hrow, cols_of_rect hA hr]
      refine ⟨conjT (lib.randomized_svd A (if n = 0 then min A.length (cols A) else n)).2.2,
        (lib.randomized_svd A (if n = 0 then min A.length (cols A) else n)).2.2,
        (if n = 0 then min A.length (cols A) else n), rfl, rfl, rfl, ?_, ?_, ?_⟩
      · exact (conjT_conjT hrect hk hc).symm
      · exact (cols_of_rect (rect_conjT hrect hk) hc).symm
      · exact hVhlen.symm
    · by_cases hm2 : method = "scipy"
      · subst hm2
        obtain ⟨hslen, hVhrect, hdesc⟩ := hsci A r c hA hr hc
        have hk : 0 < min r c := lt_min hr hc
        show FittedCoherent (generate_basis lib b A n sScipy).1
        by_cases hcond : n = 0 ∨ (conjT (lib.scipy_linalg_svd A).2.2).length < n
        · rw [generate_basis_scipy_keep lib b A n hcond]
          refine ⟨conjT (lib.scipy_linalg_svd A).2.2, (lib.scipy_linalg_svd A).2.2,
            (lib.scipy_linalg_svd A).2.2.length, rfl, rfl, rfl, ?_, ?_, rfl⟩
          · exact (conjT_conjT hVhrect hk hc).symm
          · rw [hVhrect.1]
            exact (cols_of_rect (rect_conjT hVhrect hk) hc).symm
        · have hn : 0 < n := by
            rcases Nat.eq_zero_or_pos n with h0 | h
            · exact absurd (Or.inl h0) hcond
            · exact h
          have hrectT : Rect (min n (min r c)) c ((lib.scipy_linalg_svd A).2.2.take n) :=
            rect_take n hVhrect
          have hminpos : 0 < min n (min r c) := lt_min hn hk
          have hmap : (conjT (lib.scipy_linalg_svd A).2.2).map (fun row => row.take n) =
              conjT ((lib.scipy_linalg_svd A).2.2.take n) := conjT_map_take hn _
          rw [generate_basis_scipy_trunc lib b A n hcond]
          refine ⟨(conjT (lib.scipy_linalg_svd A).2.2).map (fun row => row.take n),
            (lib.scipy_linalg_svd A).2.2.take n,
            ((lib.scipy_linalg_svd A).2.2.take n).length, rfl, rfl, rfl, ?_, ?_, rfl⟩
          · rw [hmap]
            exact (conjT_conjT hrectT hminpos hc).symm
          · rw [hmap]
            have hcols2 : cols (conjT ((lib.scipy_linalg_svd A).2.2.take n)) =
                min n (min r c) := cols_of_rect (rect_conjT hrectT hminpos) hc
            rw [hcols2, List.length_take, hVhrect.1]
      · rw [generate_basis_unsupported lib b A n method hm1 hm2] at hok
        simp at hok
  · intro b₀ rec
    exact ⟨rec.V, conjT rec.V, cols rec.V, rfl, rfl, rfl, rfl, rfl, (length_conjT _).symm⟩
  · intro b₀ storage fn
    exact ⟨(storage fn).V, conjT (storage fn).V, cols (storage fn).V, rfl, rfl, rfl, rfl,
      rfl, (length_conjT _).symm⟩

/-- Claim C6 witness: the coherence invariant evaluated after a concrete
"random" fit, a concrete dictionary load, and a concrete file load. -/
theorem C6_fitted_coherence_witness :
    FittedCoherent (generate_basis stubLib initBasis matId2 1 sRandom).1 ∧
    FittedCoherent (SVDBasis_from_dictionary initBasis recW) ∧
    FittedCoherent (SVDBasis_from_file initBasis storageW fnW) := by
  obtain ⟨h1, h2, h3⟩ := C6_fitted_coherence stubLib stubRsvd_contract stubScipy_contract
    initBasis matId2 2 2 1 sRandom rect_matId2 (by decide) (by decide) rfl
  exact ⟨h1, h2 initBasis recW, h3 initBasis storageW fnW⟩

/-- Claim C7: reconstructing a basis from a persisted record (file or
dictionary) derives `Vh` as the conjugate transpose of the persisted `V`
and `n` as `V`'s column count, ignoring any persisted `Vh`/`n` entries.
The generic keyed loader (`dingo.core.dataset`, not under the given source)
is modelled from the spec: it restores only the declared data keys
`["V", "s"]`. -/
theorem C7_loader_derived_fields (b : SVDBasis) (rec : PersistedRecord) (r c : ℕ)
    (hV : Rect r c rec.V) (hr : 0 < r)
    (storage : String → PersistedRecord) (fn : String) (hst : storage fn = rec) :
    (SVDBasis_from_dictionary b rec).V = some rec.V ∧
    (SVDBasis_from_dictionary b rec).Vh = some (conjT rec.V) ∧
    (SVDBasis_from_dictionary b rec).n = some c ∧
    (SVDBasis_from_file b storage fn).Vh = some (conjT rec.V) ∧
    (SVDBasis_from_file b storage fn).n = some c ∧
    (∀ rec' : PersistedRecord, rec'.V = rec.V → rec'.s = rec.s →
      SVDBasis_from_dictionary b rec' = SVDBasis_from_dictionary b rec) := by
  have hcols : cols rec.V = c := cols_of_rect hV hr
  refine ⟨rfl, rfl, ?_, ?_, ?_, ?_⟩
  · show some (cols rec.V) = some c
    rw [hcols]
  · show some (conjT (storage fn).V) = some (conjT rec.V)
    rw [hst]
  · show some (cols (storage fn).V) = some c
    rw [hst, hcols]
  · intro rec' h1 h2
    unfold SVDBasis_from_dictionary DingoDataset_from_dictionary
    rw [h1, h2]

/-- Claim C7 witness: loading a concrete record whose persisted stale `Vh`
and `n` entries disagree with its `V` still yields the derived values, and
a record differing only in those stale entries loads identically. -/
theorem C7_loader_derived_fields_witness :
    (SVDBasis_from_dictionary initBasis recW).V = some recW.V ∧
    (SVDBasis_from_dictionary initBasis recW).Vh = some (conjT recW.V) ∧
    (SVDBasis_from_dictionary initBasis recW).n = some 1 ∧
    (SVDBasis_from_file initBasis storageW fnW).Vh = some (conjT recW.V) ∧
    (SVDBasis_from_file initBasis storageW fnW).n = some 1 ∧
    SVDBasis_from_dictionary initBasis recW2 = SVDBasis_from_dictionary initBasis recW := by
  obtain ⟨h1, h2, h3, h4, h5, h6⟩ := C7_loader_derived_fields initBasis recW 1 1
    rect_recW (by decide) storageW fnW rfl
  exact ⟨h1, h2, h3, h4, h5, h6 recW2 rfl rfl⟩

/-- Claim C2, amended: `test_basis` does not return the statistics object —
its body has no return statement, so it returns None; the statistics object
it constructs (and persists to `outfile` when one is given) does retain, per
requested truncation level not exceeding the fitted n, the raw per-sample
mismatches `1 - Re(mean(conj(h) * h_rec)) / sqrt(mean(|h|²) * mean(|h_rec|²))`
with `h_rec = (h · V[:, :n]) · Vh[:n, :]`, and the raw per-sample
max-deviations `max(|h - h_rec|)`. -/
theorem C2_retained_statistics (b : SVDBasis) (V Vh : Mat) (nf : ℕ)
    (hV : b.V = some V) (hVh : b.Vh = some Vh) (hn : b.n = some nf)
    (td : List (List ℂ)) (htd : td ≠ [])
    (ns : List ℕ) (lvl : ℕ) (hmem : lvl ∈ ns) (hle : lvl ≤ nf) :
    (test_stats b td ns).mismatches.lookup lvl =
      some (td.map (spec_mismatch V Vh lvl)) ∧
    (test_stats b td ns).max_deviations.lookup lvl =
      some (td.map (spec_maxdev V Vh lvl)) ∧
    ∀ f, (test_basis b td ns (some f)).2.2 = [(f, test_stats b td ns)] := by
  have hgd : b.n.getD 0 = nf := by rw [hn]; rfl
  have hVg : b.V.getD [] = V := by rw [hV]; rfl
  have hVhg : b.Vh.getD [] = Vh := by rw [hVh]; rfl
  have hmain := lookup_foldl_test_step b td lvl (by rw [hgd]; exact hle) ns
    ⟨b.s, [], []⟩ (Or.inl hmem)
  refine ⟨?_, ?_, ?_⟩
  · have h1 := hmain.1
    rw [hVg, hVhg, mismatchesOf_eq_spec] at h1
    exact h1
  · have h2 := hmain.2
    rw [hVg, hVhg, maxDevsOf_eq_spec] at h2
    exact h2
  · intro f
    rfl

/-- Claim C2 witness: the amended statement evaluated on a concrete fitted
basis, a one-waveform test set and the single requested level 1. -/
theorem C2_retained_statistics_witness :
    (test_stats bFit [[1]] [1]).mismatches.lookup 1 =
      some (([[1]] : List (List ℂ)).map (spec_mismatch [[1]] [[1]] 1)) ∧
    (test_stats bFit [[1]] [1]).max_deviations.lookup 1 =
      some (([[1]] : List (List ℂ)).map (spec_maxdev [[1]] [[1]] 1)) ∧
    (test_basis bFit [[1]] [1] (some outName)).2.2 =
      [(outName, test_stats bFit [[1]] [1])] := by
  obtain ⟨h1, h2, h3⟩ := C2_retained_statistics bFit [[1]] [[1]] 1 rfl rfl rfl
    [[1]] (by simp) [1] 1 (by decide) (by decide)
  exact ⟨h1, h2, h3 outName⟩

/-- Claim C2 counterexample: contrary to the claim as stated, `test_basis`
does not return a statistics object — the Python return value is None, with
or without an outfile. -/
theorem C2_returns_none :
    (test_basis bFit [[1]] [1] none).2.1 = none ∧
    (test_basis bFit [[1]] [1] (some outName)).2.1 = none :=
  ⟨rfl, rfl⟩

/-- Claim C8: requested truncation levels strictly greater than the fitted
n are silently skipped: they raise no error (the run on any level list
equals the run on the list with those levels filtered away) and they appear
in neither the mismatches nor the max-deviations statistics. -/
theorem C8_truncation_skip (b : SVDBasis) (nf : ℕ) (hn : b.n = some nf)
    (td : List (List ℂ)) (ns : List ℕ) (outfile : Option String) :
    (∀ lvl ∈ ns, nf < lvl →
      (test_stats b td ns).mismatches.lookup lvl = none ∧
      (test_stats b td ns).max_deviations.lookup lvl = none) ∧
    test_basis b td ns outfile =
      test_basis b td (ns.filter (fun l => decide (l ≤ nf))) outfile := by
  have hgd : b.n.getD 0 = nf := by rw [hn]; rfl
  constructor
  · intro lvl hmem hlt
    exact lookup_foldl_test_step_none b td lvl (by rw [hgd]; exact hlt) ns
      ⟨b.s, [], []⟩ rfl rfl
  · have hts : test_stats b td ns =
        test_stats b td (ns.filter (fun l => decide (l ≤ nf))) := by
      unfold test_stats
      rw [← hgd]
      exact foldl_test_step_filter b td ns ⟨b.s, [], []⟩
    unfold test_basis
    rw [hts]

/-- Claim C8 witness: with a basis fitted at n = 1, the requested level 2 is
skipped without error and absent from the statistics. -/
theorem C8_truncation_skip_witness :
    ((test_stats bFit [[1]] [2]).mismatches.lookup 2 = none ∧
      (test_stats bFit [[1]] [2]).max_deviations.lookup 2 = none) ∧
    test_basis bFit [[1]] [2] none =
      test_basis bFit [[1]] ([2].filter (fun l => decide (l ≤ 1))) none := by
  obtain ⟨h1, h2⟩ := C8_truncation_skip bFit 1 rfl [[1]] [2] none
  exact ⟨h1 2 (by decide) (by decide), h2⟩

/-- Claim C9: the `ApplySVD` operator built over a fitted basis maps a keyed
waveform collection entrywise — with `inverse = false` every value v becomes
`compress(v) = v · V`, with `inverse = true` every value becomes
`decompress(v) = v · Vh`; the keys are preserved, no entry is skipped, and
(the call being a pure function of the basis and the mapping) neither the
basis nor the input mapping is modified. -/
theorem C9_apply_svd_transform (b : SVDBasis) (V Vh : Mat)
    (hV : b.V = some V) (hVh : b.Vh = some Vh) (w : List (String × Mat)) :
    ApplySVD.call ⟨b, false⟩ w = w.map (fun kv => (kv.1, matMul kv.2 V)) ∧
    ApplySVD.call ⟨b, true⟩ w = w.map (fun kv => (kv.1, matMul kv.2 Vh)) ∧
    (ApplySVD.call ⟨b, false⟩ w).map Prod.fst = w.map Prod.fst ∧
    (ApplySVD.call ⟨b, true⟩ w).map Prod.fst = w.map Prod.fst ∧
    (ApplySVD.call ⟨b, false⟩ w).length = w.length ∧
    (ApplySVD.call ⟨b, true⟩ w).length = w.length := by
  have h1 : ApplySVD.call ⟨b, false⟩ w = w.map (fun kv => (kv.1, matMul kv.2 V)) := by
    show w.map (fun kv => (kv.1, matMul kv.2 (b.V.getD []))) = _
    rw [hV]
    rfl
  have h2 : ApplySVD.call ⟨b, true⟩ w = w.map (fun kv => (kv.1, matMul kv.2 Vh)) := by
    show w.map (fun kv => (kv.1, matMul kv.2 (b.Vh.getD []))) = _
    rw [hVh]
    rfl
  refine ⟨h1, h2, ?_, ?_, ?_, ?_⟩
  · rw [h1, List.map_map]
    apply List.map_congr_left
    intro kv hkv
    rfl
  · rw [h2, List.map_map]
    apply List.map_congr_left
    intro kv hkv
    rfl
  · rw [h1, List.length_map]
  · rw [h2, List.length_map]

/-- Claim C9 witness: the transform evaluated on a concrete fitted basis and
a concrete one-entry waveform mapping. -/
theorem C9_apply_svd_transform_witness :
    ApplySVD.call ⟨bFit, false⟩ wMap = wMap.map (fun kv => (kv.1, matMul kv.2 [[1]])) ∧
    ApplySVD.call ⟨bFit, true⟩ wMap = wMap.map (fun kv => (kv.1, matMul kv.2 [[1]])) ∧
    (ApplySVD.call ⟨bFit, false⟩ wMap).map Prod.fst = wMap.map Prod.fst ∧
    (ApplySVD.call ⟨bFit, true⟩ wMap).map Prod.fst = wMap.map Prod.fst ∧
    (ApplySVD.call ⟨bFit, false⟩ wMap).length = wMap.length ∧
    (ApplySVD.call ⟨bFit, true⟩ wMap).length = wMap.length :=
  C9_apply_svd_transform bFit [[1]] [[1]] rfl rfl wMap

/-- Claim C10: `test_basis` never assigns to `self`: for every basis, test
matrix, truncation-level list and outfile option, the basis state after the
call (the first component of the embedded result) equals the state before
the call, so `V`, `Vh`, `s` and `n` are all unchanged. -/
theorem C10_test_basis_frame (b : SVDBasis) (td : List (List ℂ)) (ns : List ℕ)
    (outfile : Option String) : (test_basis b td ns outfile).1 = b :=
  rfl
